import Mathlib

/-!
Verification of the invite-code system (codec + invite service), modelled
from `src/services/invite.service.js` and the Mongoose schema in
`src/models/invite.model.js`.

Modelling conventions:
* JS strings are `List Char`; `charCodeAt` is `Char.toNat` (all strings
  involved are ASCII, where the UTF-16 code unit equals the code point).
* JS `String.prototype.indexOf(ch)` is `jsIndexOf`, returning `-1` when the
  character is absent, as in JS.
* JS `%` on integers is truncated remainder, `Int.tmod`.  At every call
  site of `calculateChecksum` in the service the summed value is
  non-negative (characters are checked to be in the alphabet before the
  checksum is recomputed, and generated characters are drawn from the
  alphabet), so `tmod` agrees with `emod` there.
* `str.replace('-', '')` removes only the FIRST occurrence of `-`, which
  `removeFirstDash` mirrors.
* Randomness (`crypto.randomBytes`) is modelled by passing the drawn bytes
  (`List Nat`) as an explicit argument to `generateRandomChars`.
-/

namespace InviteSystem

/-- JS `indexOf` helper: index of the first occurrence of `c`, counting from
`i`; `-1` when absent. -/
def jsIndexOfAux (c : Char) : List Char → Int → Int
  | [], _ => -1
  | a :: rest, i => if a = c then i else jsIndexOfAux c rest (i + 1)

/-- JS `alphabet.indexOf(char)`: first index of `c` in `l`, or `-1`. -/
def jsIndexOf (l : List Char) (c : Char) : Int :=
  jsIndexOfAux c l 0

/-- Loop body of `calculateChecksum`: each character contributes
`alphabet.indexOf(char) * weight` where the weight alternates `1,2,1,2,…`
(`(i % 2) + 1` at position `i`). -/
def weightedSum (alphabet : List Char) : List Char → Nat → Int
  | [], _ => 0
  | c :: rest, i =>
      jsIndexOf alphabet c * (((i % 2) + 1 : Nat) : Int) + weightedSum alphabet rest (i + 1)

/-- Salt influence of `calculateChecksum`: sum of the character codes of the
configured salt. -/
def saltSum (salt : List Char) : Int :=
  (salt.map fun c => (c.toNat : Int)).sum

/-- `CustomBase31Generator.calculateChecksum`: weighted positional sum of the
characters plus the salt's character-code sum, reduced `mod base`; the result
is the alphabet character at that index.  (The `'?'` default of `getD` is
unreachable whenever the sum is non-negative, which holds at every call
site of the service; JS would yield `undefined` on a negative index.) -/
def calculateChecksum (alphabet salt str : List Char) : Char :=
  let sum : Int := weightedSum alphabet str 0 + saltSum salt
  alphabet.getD (sum.tmod (alphabet.length : Int)).toNat '?'

/-- JS `code.replace('-', '')`: removes only the first `'-'`. -/
def removeFirstDash : List Char → List Char
  | [] => []
  | c :: rest => if c = '-' then rest else c :: removeFirstDash rest

/-- `CustomBase31Generator.validate`: uppercase, strip the (first) dash,
require length 8 and all characters in the alphabet, then compare the stored
checksum (index 3) against the checksum recomputed over the remaining 7
characters in their original relative order. -/
def validate (alphabet salt code : List Char) : Bool :=
  let clean := removeFirstDash (code.map Char.toUpper)
  if clean.length ≠ 8 then false
  else if !(clean.all fun c => alphabet.contains c) then false
  else
    let checksum := clean.getD 3 '?'
    let original := clean.take 3 ++ clean.drop 4
    checksum == calculateChecksum alphabet salt original

/-- `CustomBase31Generator.generateRandomChars`: maps each drawn byte to an
alphabet character via `bytes[i] % base`. -/
def generateRandomChars (alphabet : List Char) (bytes : List Nat) (len : Nat) : List Char :=
  (List.range len).map fun i => alphabet.getD (bytes.getD i 0 % alphabet.length) '?'

/-- `CustomBase31Generator.generate`, with the 7 drawn characters passed
explicitly: insert the checksum after the first 3 characters and render with
a dash after the 4th character (`ABC[checksum]-DEFG`). -/
def generate (alphabet salt randomChars : List Char) : List Char :=
  let checksum := calculateChecksum alphabet salt randomChars
  let code := randomChars.take 3 ++ checksum :: randomChars.drop 3
  code.take 4 ++ '-' :: code.drop 4

/-- Alphabet fixed by the spec's test scenario: `K7Q2N5XR8BMVY9CW3PFGJH6DZT4SL`
(29 characters). -/
def specAlphabet : List Char := "K7Q2N5XR8BMVY9CW3PFGJH6DZT4SL".toList

/-- Salt fixed by the spec's test scenario: `TestSalt2024`. -/
def specSalt : List Char := "TestSalt2024".toList

example : specAlphabet.length = 29 := by decide

example : validate specAlphabet specSalt "KKK5-KKKK".toList = true := by decide

example : validate specAlphabet specSalt "KKK7-KKKK".toList = false := by decide

example :
    generate specAlphabet specSalt "KKKKKKK".toList = "KKK5-KKKK".toList := by decide

/-! ## Invite service model

`InviteService` state: the durable Mongo record for the code under scrutiny
(`store`), the durable records of all other codes (`others`, needed for the
global `usedBy.email` uniqueness probe), and the Redis cache entry for the
code (`cache`).  External failures (lock contention, cache read/write
rejections) are passed as explicit flags; the distributed lock is assumed to
provide mutual exclusion, so the body of `useInvite` between lock
acquisition and release acts on the state atomically. -/

/-- Entry of the `usedBy` array in the Mongoose schema. -/
structure Redemption where
  email : String
  ipAddress : String
  usedAt : Int
deriving DecidableEq, Repr

/-- Invite record as stored by Mongoose (`invite.model.js`); schema defaults:
`currentUses = 0`, `isActive = true`.  `expiresAt` is milliseconds since
epoch. -/
structure Invite where
  maxUses : Nat
  currentUses : Nat
  usedBy : List Redemption
  isActive : Bool
  expiresAt : Int
deriving DecidableEq, Repr

instance : Inhabited Redemption := ⟨⟨"", "", 0⟩⟩

instance : Inhabited Invite := ⟨⟨0, 0, [], false, 0⟩⟩

/-- Failure kinds of the service, one per distinct thrown `Error` message:
`invalidFormat` = "Invalid invite code format or checksum", `contended` =
"Another request is processing this code", `notFound` = "Invalid invite
code", `maxUsesReached` = "Invite code has reached max uses", `expired` =
"Invite code has expired", `identityUsed` = "Email has already used an
invite code", `codeSpaceExhausted` = "Failed to generate unique code", and
`cacheWriteError` for a Redis `setex`/`del` rejection that escapes the
operation. -/
inductive Err where
  | invalidFormat
  | contended
  | notFound
  | maxUsesReached
  | expired
  | identityUsed
  | cacheWriteError
  | codeSpaceExhausted
deriving DecidableEq, Repr

/-- System state seen by `useInvite` for one code. -/
structure SysState where
  store : Option Invite
  others : List Invite
  cache : Option Invite
deriving DecidableEq, Repr

/-- Fault flags for one `useInvite` call: `lockBusy` models the Redis
`SET NX` failing because another holder is live; `cacheGetFails` models the
cache read rejecting (swallowed by `getFromCache`); `cacheDelFails` models
the cache invalidation `del` rejecting. -/
structure UseFaults where
  lockBusy : Bool
  cacheGetFails : Bool
  cacheDelFails : Bool
deriving DecidableEq, Repr

/-- Does any invite record anywhere already contain `email` in its `usedBy`
list?  (`Invite.findOne({'usedBy.email': userEmail})` probes the whole
collection.) -/
def usedAnywhere (st : SysState) (email : String) : Bool :=
  (match st.store with
   | some r => r.usedBy.any fun u => u.email == email
   | none => false) ||
  st.others.any fun r => r.usedBy.any fun u => u.email == email

/-- Load step of `useInvite`: cache first (an erroring cache read is
swallowed and treated as a miss by `getFromCache`); on a miss, the durable
lookup `Invite.findOne({ code, isActive: true })`, which only yields active
records. -/
def loadInvite (st : SysState) (cacheGetFails : Bool) : Option Invite :=
  match if cacheGetFails then none else st.cache with
  | some r => some r
  | none =>
      match st.store with
      | some r => if r.isActive then some r else none
      | none => none

/-- `InviteService.useInvite(code, userEmail, ipAddress)`.  Returns the JS
return value (`updatedInvite`, which is `null` when `findByIdAndUpdate`
matches no record) or the thrown failure, together with the state after the
call.  The atomic update increments the durable `currentUses`, appends the
redemption entry, and sets `isActive` to `(invite.currentUses + 1) <
invite.maxUses` computed from the LOADED record (which may be the cached
copy); the cache `del` runs after the update, so a `del` rejection
propagates with the update already applied. -/
def useInvite (alphabet salt code : List Char) (email ip : String) (now : Int)
    (f : UseFaults) (st : SysState) : Except Err (Option Invite) × SysState :=
  if !(validate alphabet salt (code.map Char.toUpper)) then (.error .invalidFormat, st)
  else if f.lockBusy then (.error .contended, st)
  else
    match loadInvite st f.cacheGetFails with
    | none => (.error .notFound, st)
    | some invite =>
        if invite.currentUses ≥ invite.maxUses then (.error .maxUsesReached, st)
        else if now > invite.expiresAt then (.error .expired, st)
        else if usedAnywhere st email then (.error .identityUsed, st)
        else
          let st' : SysState :=
            match st.store with
            | none => st
            | some r =>
                { st with
                  store := some
                    { r with
                      currentUses := r.currentUses + 1,
                      usedBy := r.usedBy ++ [⟨email, ip, now⟩],
                      isActive := decide (invite.currentUses + 1 < invite.maxUses) } }
          if f.cacheDelFails then (.error .cacheWriteError, st')
          else (.ok st'.store, { st' with cache := none })

/-- Collision-bounded generation loop of `createInvite`: `gen j` is the code
drawn on the `j`-th call of `generateCode`, `taken` is the
`Invite.findOne({ code })` probe; the `while (attempts < maxAttempts)` loop
makes at most `fuel` iterations, each generating exactly one code, and stops
at the first non-colliding code. -/
def genLoopFrom (gen : Nat → List Char) (taken : List Char → Bool) :
    Nat → Nat → Option (List Char)
  | _, 0 => none
  | j, fuel + 1 =>
      let c := gen j
      if taken c then genLoopFrom gen taken (j + 1) fuel else some c

/-- `InviteService.createInvite(referrerEmail, maxUses, expiresInDays)`: run
the bounded generation loop (10 attempts); on exhaustion throw without
persisting; otherwise persist the new record (committed) and then cache it —
a rejecting `setex` is NOT caught locally, so it escapes after the commit,
with the record already persisted.  The durable store is the list of
`(code, record)` pairs. -/
def createInvite (gen : Nat → List Char) (maxUses : Nat) (now expiresInDays : Int)
    (setexFails : Bool) (store : List (List Char × Invite)) :
    Except Err (List Char × Invite) × List (List Char × Invite) :=
  match genLoopFrom gen (fun c => store.any fun p => p.1 == c) 0 10 with
  | none => (.error .codeSpaceExhausted, store)
  | some code =>
      let invite : Invite :=
        { maxUses := maxUses, currentUses := 0, usedBy := [], isActive := true,
          expiresAt := now + expiresInDays * 24 * 60 * 60 * 1000 }
      let store' := store ++ [(code, invite)]
      if setexFails then (.error .cacheWriteError, store')
      else (.ok (code, invite), store')

/-- Result record of `getInviteStats`.  `averageUsageRate` is kept as the
exact rational the JS code computes before its display-only `toFixed(2)`
decimal rounding. -/
structure Stats where
  totalInvites : Nat
  totalUses : Nat
  activeInvites : Nat
  expiredInvites : Nat
  fullyUsedInvites : Nat
  averageUsageRate : ℚ
deriving DecidableEq, Repr

/-- `InviteService.getInviteStats(referrerEmail)` over the creator's
records: active requires `isActive && new Date(expiresAt) > now`, expired is
`new Date(expiresAt) <= now`, fully used is `currentUses >= maxUses`, and
the average usage rate is the mean of `currentUses / maxUses` times 100. -/
def getInviteStats (invites : List Invite) (now : Int) : Stats :=
  { totalInvites := invites.length
    totalUses := (invites.map fun inv => inv.currentUses).sum
    activeInvites :=
      (invites.filter fun inv => inv.isActive && decide (now < inv.expiresAt)).length
    expiredInvites := (invites.filter fun inv => decide (inv.expiresAt ≤ now)).length
    fullyUsedInvites :=
      (invites.filter fun inv => decide (inv.currentUses ≥ inv.maxUses)).length
    averageUsageRate :=
      if invites.length > 0 then
        ((invites.map fun inv => (inv.currentUses : ℚ) / (inv.maxUses : ℚ)).sum
          / (invites.length : ℚ)) * 100
      else 0 }

/-- One redemption attempt in a concurrency schedule: its redeemer identity
and whether it found the lock held by another live attempt (`contended`). -/
structure Attempt where
  email : String
  contended : Bool
deriving DecidableEq, Repr

/-- Run a schedule of redemption attempts sequentially; the per-code lease
serializes the lock-to-release section of `useInvite`, so an interleaved
execution is equivalent to some such sequence, with concurrently fired
attempts that lost the `SET NX` race appearing as `contended`. -/
def runAttempts (alphabet salt code : List Char) (ip : String) (now : Int) :
    List Attempt → SysState → List (Except Err (Option Invite)) × SysState
  | [], st => ([], st)
  | a :: rest, st =>
      let r := useInvite alphabet salt code a.email ip now ⟨a.contended, false, false⟩ st
      let rr := runAttempts alphabet salt code ip now rest r.2
      (r.1 :: rr.1, rr.2)

/-- Is a `useInvite` outcome a success? -/
def isOk : Except Err (Option Invite) → Bool
  | .ok _ => true
  | .error _ => false

/-- Number of successful outcomes in a list of results. -/
def successCount (rs : List (Except Err (Option Invite))) : Nat :=
  (rs.filter isOk).length

/-- Fault-free `useInvite` call flags. -/
def noFaults : UseFaults := ⟨false, false, false⟩

/-- Stats as the words of claim C9 state them (for comparison with
`getInviteStats`): active = "active flag true AND not expired", expired =
"now > expiresAt regardless of the flag", fully-used = "currentUses >=
maxUses", mean per-code usage ratio as a percentage.  `totalUses` is copied
from the code, as the claim does not speak about it. -/
def claimStats (invites : List Invite) (now : Int) : Stats :=
  { totalInvites := invites.length
    totalUses := (invites.map fun inv => inv.currentUses).sum
    activeInvites :=
      (invites.filter fun inv => inv.isActive && !decide (now > inv.expiresAt)).length
    expiredInvites := (invites.filter fun inv => decide (now > inv.expiresAt)).length
    fullyUsedInvites :=
      (invites.filter fun inv => decide (inv.currentUses ≥ inv.maxUses)).length
    averageUsageRate :=
      if invites.length > 0 then
        100 * ((invites.map fun inv => (inv.currentUses : ℚ) / (inv.maxUses : ℚ)).sum
          / (invites.length : ℚ))
      else 0 }

/-- State of one code after the identities `es` have successfully redeemed
it, in order, starting from a freshly issued record with `maxUses = k` and
expiry `exp`: the durable record carries `currentUses = es.length`, one
redemption entry per identity, and `isActive = (currentUses < maxUses)`;
the cache holds its issue-time entry `c0` until the first successful
redemption invalidates it. -/
def stateAfter (k : Nat) (exp : Int) (ip : String) (now : Int) (c0 : Option Invite)
    (es : List String) : SysState :=
  ⟨some ⟨k, es.length, es.map fun x => ⟨x, ip, now⟩, decide (es.length < k), exp⟩,
   [], if es.isEmpty then c0 else none⟩

/-- Validation outcomes of all single-character mutations of an 8-symbol
code at non-checksum positions: every position except index 3, every spec
alphabet symbol different from the symbol already there. -/
def mutationOutcomes (code : List Char) : List Bool :=
  ((List.range 8).filter fun p => decide (p ≠ 3)).flatMap fun p =>
    (specAlphabet.filter fun c => decide (c ≠ code.getD p '?')).map fun c =>
      validate specAlphabet specSalt (code.set p c)

instance {ε α : Type} [DecidableEq ε] [DecidableEq α] : DecidableEq (Except ε α) :=
  fun a b =>
  match a, b with
  | .ok x, .ok y =>
      if h : x = y then isTrue (congrArg Except.ok h)
      else isFalse fun hh => h (Except.ok.inj hh)
  | .error x, .error y =>
      if h : x = y then isTrue (congrArg Except.error h)
      else isFalse fun hh => h (Except.error.inj hh)
  | .ok _, .error _ => isFalse fun hh => Except.noConfusion hh
  | .error _, .ok _ => isFalse fun hh => Except.noConfusion hh

/-! ## Codec arithmetic helpers -/

lemma saltSum_nonneg (salt : List Char) : 0 ≤ saltSum salt := by
  apply List.sum_nonneg
  intro x hx
  simp only [List.mem_map] at hx
  obtain ⟨c, _, rfl⟩ := hx
  positivity

lemma jsIndexOfAux_nonneg (c : Char) (l : List Char) (i : Int) (hi : 0 ≤ i)
    (h : c ∈ l) : 0 ≤ jsIndexOfAux c l i := by
  induction l generalizing i with
  | nil => cases h
  | cons a rest ih =>
      simp only [jsIndexOfAux]
      split
      · exact hi
      · rcases List.mem_cons.mp h with h | h
        · simp_all
        · exact ih (i + 1) (by omega) h

lemma jsIndexOf_nonneg (l : List Char) (c : Char) (h : c ∈ l) : 0 ≤ jsIndexOf l c :=
  jsIndexOfAux_nonneg c l 0 le_rfl h

lemma weightedSum_nonneg (alphabet str : List Char) (i : Nat)
    (h : ∀ c ∈ str, c ∈ alphabet) : 0 ≤ weightedSum alphabet str i := by
  induction str generalizing i with
  | nil => simp [weightedSum]
  | cons c rest ih =>
      simp only [weightedSum]
      have h1 : 0 ≤ jsIndexOf alphabet c := jsIndexOf_nonneg _ _ (h c (by simp))
      have h2 : 0 ≤ weightedSum alphabet rest (i + 1) :=
        ih (i + 1) fun d hd => h d (by simp [hd])
      have h3 : (0 : Int) ≤ (((i % 2) + 1 : Nat) : Int) := by positivity
      nlinarith

lemma specAlphabet_getD_injective :
    ∀ i j : Fin 29, specAlphabet.getD i.1 '?' = specAlphabet.getD j.1 '?' → i = j := by
  decide

/-! ## C6 -/

/-- C6 counterexample: the salts `AB` and `BA` are distinct strings, yet for
the 7-symbol string `KKKKKKK` they produce the SAME checksum — the salt
influences the checksum only through the sum of its character codes, so the
claim that every two distinct salts give different checksums is false. -/
theorem c6_distinct_salts_equal_checksum :
    "AB".toList ≠ "BA".toList ∧
    calculateChecksum specAlphabet ("AB".toList) ("KKKKKKK".toList) =
      calculateChecksum specAlphabet ("BA".toList) ("KKKKKKK".toList) := by
  decide

/-- C6 amended: `calculateChecksum` is a pure function of (symbols,
alphabet, salt), and over the spec alphabet the salt enters only through its
character-code sum modulo the base: two salts produce the same checksum for
a string over the alphabet exactly when their character-code sums are
congruent mod 29. -/
theorem c6_checksum_salt_dependence (salt₁ salt₂ str : List Char)
    (hstr : ∀ c ∈ str, c ∈ specAlphabet) :
    (calculateChecksum specAlphabet salt₁ str = calculateChecksum specAlphabet salt₂ str) ↔
      saltSum salt₁ % 29 = saltSum salt₂ % 29 := by
  have hW : 0 ≤ weightedSum specAlphabet str 0 := weightedSum_nonneg _ _ _ hstr
  have hs₁ : 0 ≤ saltSum salt₁ := saltSum_nonneg _
  have hs₂ : 0 ≤ saltSum salt₂ := saltSum_nonneg _
  have hlen : (specAlphabet.length : Int) = 29 := by decide
  simp only [calculateChecksum, hlen]
  rw [Int.tmod_eq_emod (by omega) (by norm_num), Int.tmod_eq_emod (by omega) (by norm_num)]
  set W := weightedSum specAlphabet str 0
  set s₁ := saltSum salt₁
  set s₂ := saltSum salt₂
  constructor
  · intro h
    have h₁ : ((W + s₁) % 29).toNat < 29 := by omega
    have h₂ : ((W + s₂) % 29).toNat < 29 := by omega
    have hfin := specAlphabet_getD_injective ⟨_, h₁⟩ ⟨_, h₂⟩ h
    have heq : ((W + s₁) % 29).toNat = ((W + s₂) % 29).toNat := congrArg Fin.val hfin
    omega
  · intro h
    have heq : ((W + s₁) % 29).toNat = ((W + s₂) % 29).toNat := by omega
    rw [heq]

/-- Witness for C6 amended: the one-character salts `A` (code 65, `65 % 29 =
7`) and `B` (code 66, `66 % 29 = 8`) fall in different congruence classes,
so their checksums for `KKKKKKK` differ. -/
theorem c6_checksum_salt_dependence_witness :
    (∀ c ∈ "KKKKKKK".toList, c ∈ specAlphabet) ∧
    ((calculateChecksum specAlphabet ("A".toList) ("KKKKKKK".toList) =
        calculateChecksum specAlphabet ("B".toList) ("KKKKKKK".toList)) ↔
      saltSum ("A".toList) % 29 = saltSum ("B".toList) % 29) :=
  ⟨by decide, c6_checksum_salt_dependence ("A".toList) ("B".toList) ("KKKKKKK".toList)
    (by decide)⟩

/-! ## C3 -/

lemma specAlphabet_upper_fix : ∀ c ∈ specAlphabet, c.toUpper = c := by decide

lemma dash_not_mem_specAlphabet : '-' ∉ specAlphabet := by decide

lemma calculateChecksum_mem (salt str : List Char) (h : ∀ c ∈ str, c ∈ specAlphabet) :
    calculateChecksum specAlphabet salt str ∈ specAlphabet := by
  have hW := weightedSum_nonneg specAlphabet str 0 h
  have hs := saltSum_nonneg salt
  have hlen : (specAlphabet.length : Int) = 29 := by decide
  simp only [calculateChecksum, hlen]
  rw [Int.tmod_eq_emod (by omega) (by norm_num)]
  have hlt : ((weightedSum specAlphabet str 0 + saltSum salt) % 29).toNat <
      specAlphabet.length := by
    have h29 : specAlphabet.length = 29 := by decide
    omega
  rw [List.getD_eq_getElem _ _ hlt]
  exact List.getElem_mem hlt

lemma specAlphabet_getD_mod_mem (n : Nat) :
    specAlphabet.getD (n % specAlphabet.length) '?' ∈ specAlphabet := by
  have h : n % specAlphabet.length < specAlphabet.length := Nat.mod_lt _ (by decide)
  rw [List.getD_eq_getElem _ _ h]
  exact List.getElem_mem h

/-- Core of C3: for any 7 symbols drawn from the spec alphabet and any salt,
the generated code (checksum inserted at index 3, dash after the 4th symbol)
passes `validate`. -/
lemma validate_generate_eq_true (salt l : List Char)
    (hlen : l.length = 7) (hmem : ∀ c ∈ l, c ∈ specAlphabet) :
    validate specAlphabet salt (generate specAlphabet salt l) = true := by
  rcases l with _ | ⟨a, _ | ⟨b, _ | ⟨c, _ | ⟨d, _ | ⟨e, _ | ⟨f, _ | ⟨g, _ | ⟨x, t⟩⟩⟩⟩⟩⟩⟩⟩ <;>
    simp only [List.length] at hlen <;> try omega
  have ha : a ∈ specAlphabet := hmem a (by simp)
  have hb : b ∈ specAlphabet := hmem b (by simp)
  have hc : c ∈ specAlphabet := hmem c (by simp)
  have hd : d ∈ specAlphabet := hmem d (by simp)
  have he : e ∈ specAlphabet := hmem e (by simp)
  have hf : f ∈ specAlphabet := hmem f (by simp)
  have hg : g ∈ specAlphabet := hmem g (by simp)
  have hcs : calculateChecksum specAlphabet salt [a, b, c, d, e, f, g] ∈ specAlphabet :=
    calculateChecksum_mem salt _ hmem
  have hna : a ≠ '-' := fun hh => dash_not_mem_specAlphabet (hh ▸ ha)
  have hnb : b ≠ '-' := fun hh => dash_not_mem_specAlphabet (hh ▸ hb)
  have hnc : c ≠ '-' := fun hh => dash_not_mem_specAlphabet (hh ▸ hc)
  have hncs : calculateChecksum specAlphabet salt [a, b, c, d, e, f, g] ≠ '-' :=
    fun hh => dash_not_mem_specAlphabet (hh ▸ hcs)
  simp only [generate, validate, List.take, List.drop, List.map, List.cons_append,
    List.nil_append, specAlphabet_upper_fix a ha, specAlphabet_upper_fix b hb,
    specAlphabet_upper_fix c hc, specAlphabet_upper_fix d hd, specAlphabet_upper_fix e he,
    specAlphabet_upper_fix f hf, specAlphabet_upper_fix g hg,
    specAlphabet_upper_fix _ hcs, removeFirstDash, hna, hnb, hnc, hncs, if_false]
  simp only [show ('-' : Char).toUpper = '-' from by decide, removeFirstDash, if_pos]
  simp [List.elem_eq_true_of_mem, ha, hb, hc, hd, he, hf, hg, hcs,
    List.elem_eq_true_of_mem hcs]

/-- C3: every code produced by `generate` — for every outcome of the drawn
random bytes, hence of the 7 uniformly drawn alphabet symbols — and every
salt, passes `validate`. -/
theorem c3_validate_of_generate (salt : List Char) (bytes : List Nat) :
    validate specAlphabet salt
      (generate specAlphabet salt (generateRandomChars specAlphabet bytes 7)) = true := by
  apply validate_generate_eq_true
  · simp [generateRandomChars]
  · intro c hc
    simp only [generateRandomChars, List.mem_map, List.mem_range] at hc
    obtain ⟨i, _, rfl⟩ := hc
    exact specAlphabet_getD_mod_mem _

/-! ## C7 -/

/-- Index bounds in the spec alphabet: every member's JS index is in
`[0, 29)`. -/
lemma specAlphabet_index_range :
    ∀ c ∈ specAlphabet, 0 ≤ jsIndexOf specAlphabet c ∧ jsIndexOf specAlphabet c < 29 := by
  decide

/-- Distinct members of the spec alphabet have distinct JS indices. -/
lemma specAlphabet_index_inj :
    ∀ c ∈ specAlphabet, ∀ c' ∈ specAlphabet, c ≠ c' →
      jsIndexOf specAlphabet c ≠ jsIndexOf specAlphabet c' := by
  decide

/-- Two sums with different residues mod 29 select different alphabet
characters (the spec alphabet has no repeated characters). -/
lemma checksum_shift_ne (x y : Int) (hx : 0 ≤ x) (hy : 0 ≤ y)
    (hnd : ¬ ((29 : Int) ∣ (x - y))) :
    specAlphabet.getD ((x.tmod 29).toNat) '?' ≠ specAlphabet.getD ((y.tmod 29).toNat) '?' := by
  rw [Int.tmod_eq_emod hx (by norm_num), Int.tmod_eq_emod hy (by norm_num)]
  intro h
  have h₁ : (x % 29).toNat < 29 := by omega
  have h₂ : (y % 29).toNat < 29 := by omega
  have hfin := specAlphabet_getD_injective ⟨_, h₁⟩ ⟨_, h₂⟩ h
  have heq : (x % 29).toNat = (y % 29).toNat := congrArg Fin.val hfin
  exact hnd (by omega)

/-- A weight-1 or weight-2 multiple of a difference of two distinct indices
in `[0, 29)` is never divisible by 29 (29 is an odd prime). -/
lemma weight_delta_not_dvd (w a b : Int) (hw : w = 1 ∨ w = 2) (ha : 0 ≤ a)
    (ha' : a < 29) (hb : 0 ≤ b) (hb' : b < 29) (hab : a ≠ b) :
    ¬ ((29 : Int) ∣ (w * (a - b))) := by
  rcases hw with rfl | rfl <;> (intro hd; omega)

/-- Checksums differ whenever the weighted sums differ by a weight-scaled
substitution of one alphabet symbol for a different one. -/
lemma calculateChecksum_ne_of_single_change (salt l l' : List Char)
    (hmem : ∀ c ∈ l, c ∈ specAlphabet) (hmem' : ∀ c ∈ l', c ∈ specAlphabet)
    (w : Int) (hw : w = 1 ∨ w = 2) (a b : Char) (ha : a ∈ specAlphabet)
    (hb : b ∈ specAlphabet) (hab : a ≠ b)
    (hdiff : weightedSum specAlphabet l' 0 - weightedSum specAlphabet l 0 =
      w * (jsIndexOf specAlphabet a - jsIndexOf specAlphabet b)) :
    calculateChecksum specAlphabet salt l' ≠ calculateChecksum specAlphabet salt l := by
  have hWl := weightedSum_nonneg specAlphabet l 0 hmem
  have hWl' := weightedSum_nonneg specAlphabet l' 0 hmem'
  have hs := saltSum_nonneg salt
  have hlen : (specAlphabet.length : Int) = 29 := by decide
  have hra := specAlphabet_index_range a ha
  have hrb := specAlphabet_index_range b hb
  have hidx := specAlphabet_index_inj a ha b hb hab
  simp only [calculateChecksum, hlen]
  apply checksum_shift_ne _ _ (by omega) (by omega)
  have harr : weightedSum specAlphabet l' 0 + saltSum salt -
      (weightedSum specAlphabet l 0 + saltSum salt) =
      weightedSum specAlphabet l' 0 - weightedSum specAlphabet l 0 := by ring
  rw [harr, hdiff]
  exact weight_delta_not_dvd w _ _ hw hra.1 hra.2 hrb.1 hrb.2 hidx

/-- Validation of a dash-free code over the spec alphabet reduces to the
checksum comparison: stored symbol at index 3 against the checksum of the
remaining 7 symbols. -/
lemma validate_eq_checksum_check (salt l : List Char) (hlen : l.length = 8)
    (hmem : ∀ c ∈ l, c ∈ specAlphabet) :
    validate specAlphabet salt l =
      (l.getD 3 '?' == calculateChecksum specAlphabet salt (l.take 3 ++ l.drop 4)) := by
  rcases l with _ | ⟨a, _ | ⟨b, _ | ⟨c, _ | ⟨d, _ | ⟨e, _ | ⟨f, _ | ⟨g, _ | ⟨k,
    _ | ⟨x, t⟩⟩⟩⟩⟩⟩⟩⟩⟩ <;> simp only [List.length] at hlen <;> try omega
  have ha : a ∈ specAlphabet := hmem a (by simp)
  have hb : b ∈ specAlphabet := hmem b (by simp)
  have hc : c ∈ specAlphabet := hmem c (by simp)
  have hd : d ∈ specAlphabet := hmem d (by simp)
  have he : e ∈ specAlphabet := hmem e (by simp)
  have hf : f ∈ specAlphabet := hmem f (by simp)
  have hg : g ∈ specAlphabet := hmem g (by simp)
  have hk : k ∈ specAlphabet := hmem k (by simp)
  have hna : a ≠ '-' := fun hh => dash_not_mem_specAlphabet (hh ▸ ha)
  have hnb : b ≠ '-' := fun hh => dash_not_mem_specAlphabet (hh ▸ hb)
  have hnc : c ≠ '-' := fun hh => dash_not_mem_specAlphabet (hh ▸ hc)
  have hnd : d ≠ '-' := fun hh => dash_not_mem_specAlphabet (hh ▸ hd)
  have hne : e ≠ '-' := fun hh => dash_not_mem_specAlphabet (hh ▸ he)
  have hnf : f ≠ '-' := fun hh => dash_not_mem_specAlphabet (hh ▸ hf)
  have hng : g ≠ '-' := fun hh => dash_not_mem_specAlphabet (hh ▸ hg)
  have hnk : k ≠ '-' := fun hh => dash_not_mem_specAlphabet (hh ▸ hk)
  simp only [validate, List.map, specAlphabet_upper_fix a ha, specAlphabet_upper_fix b hb,
    specAlphabet_upper_fix c hc, specAlphabet_upper_fix d hd, specAlphabet_upper_fix e he,
    specAlphabet_upper_fix f hf, specAlphabet_upper_fix g hg, specAlphabet_upper_fix k hk,
    removeFirstDash, hna, hnb, hnc, hnd, hne, hnf, hng, hnk, if_false]
  simp [List.elem_eq_true_of_mem, ha, hb, hc, hd, he, hf, hg, hk]

/-- C7 amended: over the fixed alphabet (size 29, a prime) every
single-character mutation at a non-checksum position of a code accepted by
`validate` is rejected — the rejection probability is 1, not `(B-1)/B`:
the positional weights 1 and 2 are invertible mod 29, so a changed symbol
always changes the expected checksum, which the unchanged stored checksum
no longer matches. -/
theorem c7_single_mutation_always_rejected (salt code : List Char) (p : Nat) (c' : Char)
    (hlen : code.length = 8) (hmem : ∀ c ∈ code, c ∈ specAlphabet)
    (hval : validate specAlphabet salt code = true)
    (hp : p < 8) (hp3 : p ≠ 3) (hc' : c' ∈ specAlphabet)
    (hdne : c' ≠ code.getD p '?') :
    validate specAlphabet salt (code.set p c') = false := by
  rcases code with _ | ⟨c0, _ | ⟨c1, _ | ⟨c2, _ | ⟨c3, _ | ⟨c4, _ | ⟨c5, _ | ⟨c6, _ | ⟨c7,
    _ | ⟨x, t⟩⟩⟩⟩⟩⟩⟩⟩⟩ <;> simp only [List.length] at hlen <;> try omega
  have h0 : c0 ∈ specAlphabet := hmem c0 (by simp)
  have h1 : c1 ∈ specAlphabet := hmem c1 (by simp)
  have h2 : c2 ∈ specAlphabet := hmem c2 (by simp)
  have h3 : c3 ∈ specAlphabet := hmem c3 (by simp)
  have h4 : c4 ∈ specAlphabet := hmem c4 (by simp)
  have h5 : c5 ∈ specAlphabet := hmem c5 (by simp)
  have h6 : c6 ∈ specAlphabet := hmem c6 (by simp)
  have h7 : c7 ∈ specAlphabet := hmem c7 (by simp)
  rw [validate_eq_checksum_check salt _ (by rfl) hmem] at hval
  have hc3 : c3 = calculateChecksum specAlphabet salt [c0, c1, c2, c4, c5, c6, c7] :=
    beq_iff_eq.mp hval
  interval_cases p
  · show validate specAlphabet salt [c', c1, c2, c3, c4, c5, c6, c7] = false
    rw [validate_eq_checksum_check salt [c', c1, c2, c3, c4, c5, c6, c7] rfl
      (by intro x hx
          simp only [List.mem_cons, List.not_mem_nil, or_false] at hx
          rcases hx with rfl | rfl | rfl | rfl | rfl | rfl | rfl | rfl <;> assumption)]
    rw [beq_eq_false_iff_ne]
    show c3 ≠ calculateChecksum specAlphabet salt [c', c1, c2, c4, c5, c6, c7]
    rw [hc3]
    refine (calculateChecksum_ne_of_single_change salt _ _ ?_ ?_ 1 (Or.inl rfl)
      c' c0 hc' h0 hdne ?_).symm
    · intro x hx
      simp only [List.mem_cons, List.not_mem_nil, or_false] at hx
      rcases hx with rfl | rfl | rfl | rfl | rfl | rfl | rfl <;> assumption
    · intro x hx
      simp only [List.mem_cons, List.not_mem_nil, or_false] at hx
      rcases hx with rfl | rfl | rfl | rfl | rfl | rfl | rfl <;> assumption
    · simp only [weightedSum, jsIndexOf]
      push_cast
      ring
  · show validate specAlphabet salt [c0, c', c2, c3, c4, c5, c6, c7] = false
    rw [validate_eq_checksum_check salt [c0, c', c2, c3, c4, c5, c6, c7] rfl
      (by intro x hx
          simp only [List.mem_cons, List.not_mem_nil, or_false] at hx
          rcases hx with rfl | rfl | rfl | rfl | rfl | rfl | rfl | rfl <;> assumption)]
    rw [beq_eq_false_iff_ne]
    show c3 ≠ calculateChecksum specAlphabet salt [c0, c', c2, c4, c5, c6, c7]
    rw [hc3]
    refine (calculateChecksum_ne_of_single_change salt _ _ ?_ ?_ 2 (Or.inr rfl)
      c' c1 hc' h1 hdne ?_).symm
    · intro x hx
      simp only [List.mem_cons, List.not_mem_nil, or_false] at hx
      rcases hx with rfl | rfl | rfl | rfl | rfl | rfl | rfl <;> assumption
    · intro x hx
      simp only [List.mem_cons, List.not_mem_nil, or_false] at hx
      rcases hx with rfl | rfl | rfl | rfl | rfl | rfl | rfl <;> assumption
    · simp only [weightedSum, jsIndexOf]
      push_cast
      ring
  · show validate specAlphabet salt [c0, c1, c', c3, c4, c5, c6, c7] = false
    rw [validate_eq_checksum_check salt [c0, c1, c', c3, c4, c5, c6, c7] rfl
      (by intro x hx
          simp only [List.mem_cons, List.not_mem_nil, or_false] at hx
          rcases hx with rfl | rfl | rfl | rfl | rfl | rfl | rfl | rfl <;> assumption)]
    rw [beq_eq_false_iff_ne]
    show c3 ≠ calculateChecksum specAlphabet salt [c0, c1, c', c4, c5, c6, c7]
    rw [hc3]
    refine (calculateChecksum_ne_of_single_change salt _ _ ?_ ?_ 1 (Or.inl rfl)
      c' c2 hc' h2 hdne ?_).symm
    · intro x hx
      simp only [List.mem_cons, List.not_mem_nil, or_false] at hx
      rcases hx with rfl | rfl | rfl | rfl | rfl | rfl | rfl <;> assumption
    · intro x hx
      simp only [List.mem_cons, List.not_mem_nil, or_false] at hx
      rcases hx with rfl | rfl | rfl | rfl | rfl | rfl | rfl <;> assumption
    · simp only [weightedSum, jsIndexOf]
      push_cast
      ring
  · exact absurd rfl hp3
  · show validate specAlphabet salt [c0, c1, c2, c3, c', c5, c6, c7] = false
    rw [validate_eq_checksum_check salt [c0, c1, c2, c3, c', c5, c6, c7] rfl
      (by intro x hx
          simp only [List.mem_cons, List.not_mem_nil, or_false] at hx
          rcases hx with rfl | rfl | rfl | rfl | rfl | rfl | rfl | rfl <;> assumption)]
    rw [beq_eq_false_iff_ne]
    show c3 ≠ calculateChecksum specAlphabet salt [c0, c1, c2, c', c5, c6, c7]
    rw [hc3]
    refine (calculateChecksum_ne_of_single_change salt _ _ ?_ ?_ 2 (Or.inr rfl)
      c' c4 hc' h4 hdne ?_).symm
    · intro x hx
      simp only [List.mem_cons, List.not_mem_nil, or_false] at hx
      rcases hx with rfl | rfl | rfl | rfl | rfl | rfl | rfl <;> assumption
    · intro x hx
      simp only [List.mem_cons, List.not_mem_nil, or_false] at hx
      rcases hx with rfl | rfl | rfl | rfl | rfl | rfl | rfl <;> assumption
    · simp only [weightedSum, jsIndexOf]
      push_cast
      ring
  · show validate specAlphabet salt [c0, c1, c2, c3, c4, c', c6, c7] = false
    rw [validate_eq_checksum_check salt [c0, c1, c2, c3, c4, c', c6, c7] rfl
      (by intro x hx
          simp only [List.mem_cons, List.not_mem_nil, or_false] at hx
          rcases hx with rfl | rfl | rfl | rfl | rfl | rfl | rfl | rfl <;> assumption)]
    rw [beq_eq_false_iff_ne]
    show c3 ≠ calculateChecksum specAlphabet salt [c0, c1, c2, c4, c', c6, c7]
    rw [hc3]
    refine (calculateChecksum_ne_of_single_change salt _ _ ?_ ?_ 1 (Or.inl rfl)
      c' c5 hc' h5 hdne ?_).symm
    · intro x hx
      simp only [List.mem_cons, List.not_mem_nil, or_false] at hx
      rcases hx with rfl | rfl | rfl | rfl | rfl | rfl | rfl <;> assumption
    · intro x hx
      simp only [List.mem_cons, List.not_mem_nil, or_false] at hx
      rcases hx with rfl | rfl | rfl | rfl | rfl | rfl | rfl <;> assumption
    · simp only [weightedSum, jsIndexOf]
      push_cast
      ring
  · show validate specAlphabet salt [c0, c1, c2, c3, c4, c5, c', c7] = false
    rw [validate_eq_checksum_check salt [c0, c1, c2, c3, c4, c5, c', c7] rfl
      (by intro x hx
          simp only [List.mem_cons, List.not_mem_nil, or_false] at hx
          rcases hx with rfl | rfl | rfl | rfl | rfl | rfl | rfl | rfl <;> assumption)]
    rw [beq_eq_false_iff_ne]
    show c3 ≠ calculateChecksum specAlphabet salt [c0, c1, c2, c4, c5, c', c7]
    rw [hc3]
    refine (calculateChecksum_ne_of_single_change salt _ _ ?_ ?_ 2 (Or.inr rfl)
      c' c6 hc' h6 hdne ?_).symm
    · intro x hx
      simp only [List.mem_cons, List.not_mem_nil, or_false] at hx
      rcases hx with rfl | rfl | rfl | rfl | rfl | rfl | rfl <;> assumption
    · intro x hx
      simp only [List.mem_cons, List.not_mem_nil, or_false] at hx
      rcases hx with rfl | rfl | rfl | rfl | rfl | rfl | rfl <;> assumption
    · simp only [weightedSum, jsIndexOf]
      push_cast
      ring
  · show validate specAlphabet salt [c0, c1, c2, c3, c4, c5, c6, c'] = false
    rw [validate_eq_checksum_check salt [c0, c1, c2, c3, c4, c5, c6, c'] rfl
      (by intro x hx
          simp only [List.mem_cons, List.not_mem_nil, or_false] at hx
          rcases hx with rfl | rfl | rfl | rfl | rfl | rfl | rfl | rfl <;> assumption)]
    rw [beq_eq_false_iff_ne]
    show c3 ≠ calculateChecksum specAlphabet salt [c0, c1, c2, c4, c5, c6, c']
    rw [hc3]
    refine (calculateChecksum_ne_of_single_change salt _ _ ?_ ?_ 1 (Or.inl rfl)
      c' c7 hc' h7 hdne ?_).symm
    · intro x hx
      simp only [List.mem_cons, List.not_mem_nil, or_false] at hx
      rcases hx with rfl | rfl | rfl | rfl | rfl | rfl | rfl <;> assumption
    · intro x hx
      simp only [List.mem_cons, List.not_mem_nil, or_false] at hx
      rcases hx with rfl | rfl | rfl | rfl | rfl | rfl | rfl <;> assumption
    · simp only [weightedSum, jsIndexOf]
      push_cast
      ring

/-- Witness for C7 amended: replacing the first symbol of the valid code
`KKK5KKKK` by `7` is rejected by `validate`. -/
theorem c7_single_mutation_always_rejected_witness :
    validate specAlphabet specSalt (("KKK5KKKK".toList).set 0 '7') = false :=
  c7_single_mutation_always_rejected specSalt ("KKK5KKKK".toList) 0 '7' (by decide)
    (by decide) (by decide) (by decide) (by decide) (by decide) (by decide)

set_option maxRecDepth 40000 in
/-- C7 counterexample: for the valid code `KKK5KKKK` under the fixed
alphabet and salt, ALL 196 single-character mutations at non-checksum
positions are rejected, so the realized rejection rate is 196/196 = 1, not
`(B-1)/B = 28/29` as the claim states: `196 * 29 ≠ 28 * 196`. -/
theorem c7_mutation_rejection_rate_is_one :
    (mutationOutcomes ("KKK5KKKK".toList)).length = 196 ∧
    (mutationOutcomes ("KKK5KKKK".toList)).count false = 196 ∧
    ((mutationOutcomes ("KKK5KKKK".toList)).count false) * 29 ≠
      28 * (mutationOutcomes ("KKK5KKKK".toList)).length := by
  exact ⟨by decide, by decide, by decide⟩

/-! ## C1 -/

/-- C1: issue an invite with `maxUses = 1` and redeem it once with
`user@test.com` — this succeeds, leaving `currentUses = 1`, `isActive =
false`, and the cache invalidated.  A second redemption of the same code
with `other@test.com` then fails with `notFound` ("Invalid invite code"),
NOT with `maxUsesReached`: the durable load `findOne({ code, isActive:
true })` filters out the now-inactive record, so the uses-check is never
reached.  This contradicts the claim (and the repo's own test "should
reject max used invite", which expects the max-uses error). -/
theorem c1_second_redemption_is_not_found :
    useInvite specAlphabet specSalt ("KKK5-KKKK".toList) "user@test.com" "127.0.0.1" 0
        noFaults
        ⟨some ⟨1, 0, [], true, 1000000⟩, [], some ⟨1, 0, [], true, 1000000⟩⟩ =
      (.ok (some ⟨1, 1, [⟨"user@test.com", "127.0.0.1", 0⟩], false, 1000000⟩),
       ⟨some ⟨1, 1, [⟨"user@test.com", "127.0.0.1", 0⟩], false, 1000000⟩, [], none⟩) ∧
    useInvite specAlphabet specSalt ("KKK5-KKKK".toList) "other@test.com" "127.0.0.1" 0
        noFaults
        ⟨some ⟨1, 1, [⟨"user@test.com", "127.0.0.1", 0⟩], false, 1000000⟩, [], none⟩ =
      (.error .notFound,
       ⟨some ⟨1, 1, [⟨"user@test.com", "127.0.0.1", 0⟩], false, 1000000⟩, [], none⟩) := by
  decide

/-! ## C4 -/

/-- C4: on a loaded invite record the redemption rules are applied in the
fixed order uses-check, expiry-check, identity-check, short-circuiting at
the first failure: a loaded record at max uses fails `maxUsesReached`
whatever its expiry or the identity's history, and a loaded record below max
uses but expired fails `expired` whatever the identity's history. -/
theorem c4_rule_check_order (alphabet salt code : List Char) (email ip : String)
    (now : Int) (f : UseFaults) (st : SysState) (rec : Invite)
    (hv : validate alphabet salt (code.map Char.toUpper) = true)
    (hl : f.lockBusy = false)
    (hload : loadInvite st f.cacheGetFails = some rec) :
    (rec.currentUses ≥ rec.maxUses →
      useInvite alphabet salt code email ip now f st = (.error .maxUsesReached, st)) ∧
    (rec.currentUses < rec.maxUses → now > rec.expiresAt →
      useInvite alphabet salt code email ip now f st = (.error .expired, st)) := by
  constructor
  · intro h
    simp [useInvite, hv, hl, hload, h]
  · intro h1 h2
    simp [useInvite, hv, hl, hload, not_le.mpr h1, h2]

/-- Witness for C4: a record both at max uses and expired fails
`maxUsesReached`, and a record that is expired while its redeemer's email
already appears in another record's redemption list fails `expired`. -/
theorem c4_rule_check_order_witness :
    useInvite specAlphabet specSalt ("KKK5-KKKK".toList) "u@test.com" "ip" 0 noFaults
        ⟨none, [], some ⟨1, 1, [], true, -5⟩⟩ =
      (.error .maxUsesReached, ⟨none, [], some ⟨1, 1, [], true, -5⟩⟩) ∧
    useInvite specAlphabet specSalt ("KKK5-KKKK".toList) "u@test.com" "ip" 0 noFaults
        ⟨none, [⟨1, 1, [⟨"u@test.com", "ip", 0⟩], false, 9⟩], some ⟨2, 1, [], true, -5⟩⟩ =
      (.error .expired,
       ⟨none, [⟨1, 1, [⟨"u@test.com", "ip", 0⟩], false, 9⟩], some ⟨2, 1, [], true, -5⟩⟩) := by
  refine ⟨(c4_rule_check_order specAlphabet specSalt ("KKK5-KKKK".toList) "u@test.com" "ip"
      0 noFaults ⟨none, [], some ⟨1, 1, [], true, -5⟩⟩ ⟨1, 1, [], true, -5⟩
      (by decide) rfl (by decide)).1 (by decide),
    (c4_rule_check_order specAlphabet specSalt ("KKK5-KKKK".toList) "u@test.com" "ip"
      0 noFaults ⟨none, [⟨1, 1, [⟨"u@test.com", "ip", 0⟩], false, 9⟩], some ⟨2, 1, [], true, -5⟩⟩
      ⟨2, 1, [], true, -5⟩ (by decide) rfl (by decide)).2 (by decide) (by decide)⟩

/-! ## C8 -/

lemma genLoopFrom_eq_some (gen : Nat → List Char) (taken : List Char → Bool) :
    ∀ fuel j c, genLoopFrom gen taken j fuel = some c →
      ∃ i, i < fuel ∧ c = gen (j + i) ∧ taken c = false ∧
        ∀ k < i, taken (gen (j + k)) = true := by
  intro fuel
  induction fuel with
  | zero => intro j c h; simp [genLoopFrom] at h
  | succ f ih =>
      intro j c h
      simp only [genLoopFrom] at h
      split at h
      · obtain ⟨i, hi, hc, ht, hall⟩ := ih (j + 1) c h
        refine ⟨i + 1, by omega, by rw [hc]; congr 1; omega, ht, ?_⟩
        intro k hk
        rcases Nat.eq_zero_or_pos k with rfl | hp
        · simpa using ‹taken (gen j) = true›
        · have := hall (k - 1) (by omega)
          have hjk : j + 1 + (k - 1) = j + k := by omega
          rwa [hjk] at this
      · injection h with h
        subst h
        exact ⟨0, by omega, by simp, by simp_all, by omega⟩

lemma genLoopFrom_eq_none (gen : Nat → List Char) (taken : List Char → Bool) :
    ∀ fuel j, genLoopFrom gen taken j fuel = none ↔
      ∀ i < fuel, taken (gen (j + i)) = true := by
  intro fuel
  induction fuel with
  | zero => intro j; simp [genLoopFrom]
  | succ f ih =>
      intro j
      simp only [genLoopFrom]
      split
      · rw [ih (j + 1)]
        constructor
        · intro h i hi
          rcases Nat.eq_zero_or_pos i with rfl | hp
          · simpa using ‹taken (gen j) = true›
          · have := h (i - 1) (by omega)
            have hji : j + 1 + (i - 1) = j + i := by omega
            rwa [hji] at this
        · intro h i hi
          have := h (i + 1) (by omega)
          have hji : j + (i + 1) = j + 1 + i := by omega
          rwa [hji] at this
      · constructor
        · intro h; cases h
        · intro h
          have := h 0 (by omega)
          simp_all

lemma genLoopFrom_congr (gen gen' : Nat → List Char) (taken : List Char → Bool) :
    ∀ fuel j, (∀ i < fuel, gen (j + i) = gen' (j + i)) →
      genLoopFrom gen taken j fuel = genLoopFrom gen' taken j fuel := by
  intro fuel
  induction fuel with
  | zero => intro j _; rfl
  | succ f ih =>
      intro j hg
      have h0 : gen j = gen' j := by simpa using hg 0 (by omega)
      simp only [genLoopFrom, h0]
      split
      · apply ih
        intro i hi
        have := hg (i + 1) (by omega)
        have hji : j + (i + 1) = j + 1 + i := by omega
        rwa [hji] at this
      · rfl

/-- C8: `createInvite` performs at most 10 code-generation attempts — its
result only depends on the first 10 drawn codes; it either persists a record
under the first generated code with no collision in the store (all earlier
attempts having collided), or, when all 10 attempts collide, fails with the
distinct code-space-exhausted error ("Failed to generate unique code")
without persisting anything. -/
theorem c8_bounded_code_generation (gen gen' : Nat → List Char) (maxUses : Nat)
    (now expiresInDays : Int) (store : List (List Char × Invite))
    (hg : ∀ i < 10, gen i = gen' i) :
    createInvite gen maxUses now expiresInDays false store =
      createInvite gen' maxUses now expiresInDays false store ∧
    ((∀ i < 10, (store.any fun p => p.1 == gen i) = true) →
      createInvite gen maxUses now expiresInDays false store =
        (.error .codeSpaceExhausted, store)) ∧
    (∀ code invite store₂,
      createInvite gen maxUses now expiresInDays false store =
          (.ok (code, invite), store₂) →
      ∃ i, i < 10 ∧ code = gen i ∧ (store.any fun p => p.1 == code) = false ∧
        (∀ k < i, (store.any fun p => p.1 == gen k) = true) ∧
        store₂ = store ++ [(code, invite)]) ∧
    (∀ e store₂,
      createInvite gen maxUses now expiresInDays false store = (.error e, store₂) →
      store₂ = store) := by
  refine ⟨?_, ?_, ?_, ?_⟩
  · have h := genLoopFrom_congr gen gen' (fun c => store.any fun p => p.1 == c) 10 0
      (fun i hi => by simpa using hg i hi)
    simp only [createInvite, h]
  · intro h
    have hnone : genLoopFrom gen (fun c => store.any fun p => p.1 == c) 0 10 = none :=
      (genLoopFrom_eq_none gen _ 10 0).mpr (fun i hi => by simpa using h i hi)
    simp [createInvite, hnone]
  · intro code invite store₂ h
    simp only [createInvite] at h
    cases hloop : genLoopFrom gen (fun c => store.any fun p => p.1 == c) 0 10 with
    | none => rw [hloop] at h; cases h
    | some c =>
        rw [hloop] at h
        simp only [if_neg, Bool.false_eq_true, if_false, Prod.mk.injEq,
          Except.ok.injEq] at h
        obtain ⟨⟨hcode, hinv⟩, hst⟩ := h
        obtain ⟨i, hi, hc, ht, hall⟩ := genLoopFrom_eq_some gen _ 10 0 c hloop
        refine ⟨i, hi, by rw [← hcode, hc]; congr 1; omega, by rw [← hcode]; exact ht,
          fun k hk => by simpa using hall k hk, by rw [← hst, ← hcode, ← hinv]⟩
  · intro e store₂ h
    simp only [createInvite] at h
    cases hloop : genLoopFrom gen (fun c => store.any fun p => p.1 == c) 0 10 with
    | none => rw [hloop] at h; injection h with _ h2; exact h2.symm
    | some c => rw [hloop] at h; simp at h

/-- Witness for C8: with a constant generator and an empty store the first
attempt is collision-free, so the invite is persisted under that code. -/
theorem c8_bounded_code_generation_witness :
    createInvite (fun _ => "AAAA".toList) 1 0 30 false [] =
      createInvite (fun _ => "AAAA".toList) 1 0 30 false [] ∧
    ((∀ i < 10, (([] : List (List Char × Invite)).any
        fun p => p.1 == (fun _ : Nat => "AAAA".toList) i) = true) →
      createInvite (fun _ => "AAAA".toList) 1 0 30 false [] =
        (.error .codeSpaceExhausted, [])) ∧
    (∀ code invite store₂,
      createInvite (fun _ => "AAAA".toList) 1 0 30 false [] =
          (.ok (code, invite), store₂) →
      ∃ i, i < 10 ∧ code = (fun _ : Nat => "AAAA".toList) i ∧
        (([] : List (List Char × Invite)).any fun p => p.1 == code) = false ∧
        (∀ k < i, (([] : List (List Char × Invite)).any
          fun p => p.1 == (fun _ : Nat => "AAAA".toList) k) = true) ∧
        store₂ = [] ++ [(code, invite)]) ∧
    (∀ e store₂,
      createInvite (fun _ => "AAAA".toList) 1 0 30 false [] = (.error e, store₂) →
      store₂ = []) :=
  c8_bounded_code_generation (fun _ => "AAAA".toList) (fun _ => "AAAA".toList) 1 0 30 []
    (fun _ _ => rfl)

/-! ## C9 -/

/-- C9 counterexample: for a single record whose `expiresAt` equals `now`,
the code counts it expired (`expiresAt <= now`) and not active
(`expiresAt > now` fails), while the claim's strict reading (`now >
expiresAt`) counts it not expired and active — so the claim's formulas
disagree with `getInviteStats` at the expiry boundary. -/
theorem c9_boundary_counterexample :
    claimStats [⟨1, 0, [], true, 50⟩] 50 ≠ getInviteStats [⟨1, 0, [], true, 50⟩] 50 ∧
    (getInviteStats [⟨1, 0, [], true, 50⟩] 50).expiredInvites = 1 ∧
    (claimStats [⟨1, 0, [], true, 50⟩] 50).expiredInvites = 0 ∧
    (getInviteStats [⟨1, 0, [], true, 50⟩] 50).activeInvites = 0 ∧
    (claimStats [⟨1, 0, [], true, 50⟩] 50).activeInvites = 1 := by
  refine ⟨?_, by decide, by decide, by decide, by decide⟩
  intro h
  have := congrArg Stats.expiredInvites h
  simp [claimStats, getInviteStats] at this

/-- C9 amended: `getInviteStats` returns the total count; active = the
count of records with the active flag true AND `now` strictly before
`expiresAt`; expired = the count of records with `now ≥ expiresAt`
(the boundary instant counts as expired) regardless of the flag;
fully-used = the count with `currentUses ≥ maxUses`; and the mean per-code
usage ratio `currentUses / maxUses` expressed as a percentage (0 for an
empty record set). -/
theorem c9_stats_characterization (invites : List Invite) (now : Int) :
    (getInviteStats invites now).totalInvites = invites.length ∧
    (getInviteStats invites now).activeInvites =
      invites.countP (fun inv => inv.isActive && decide (now < inv.expiresAt)) ∧
    (getInviteStats invites now).expiredInvites =
      invites.countP (fun inv => decide (now ≥ inv.expiresAt)) ∧
    (getInviteStats invites now).fullyUsedInvites =
      invites.countP (fun inv => decide (inv.currentUses ≥ inv.maxUses)) ∧
    (getInviteStats invites now).averageUsageRate =
      (if 0 < invites.length then
        100 * ((invites.map fun inv => (inv.currentUses : ℚ) / (inv.maxUses : ℚ)).sum
          / (invites.length : ℚ))
      else 0) := by
  refine ⟨rfl, ?_, ?_, ?_, ?_⟩
  · rw [List.countP_eq_length_filter]; rfl
  · rw [List.countP_eq_length_filter]
    have hp : ∀ inv : Invite,
        (decide (inv.expiresAt ≤ now)) = (decide (now ≥ inv.expiresAt)) := fun _ => rfl
    simp [getInviteStats, hp]
  · rw [List.countP_eq_length_filter]; rfl
  · simp only [getInviteStats]
    split <;> [ring; rfl]

/-! ## C5 -/

/-- C5 counterexample: cache WRITE errors are not swallowed.  A rejecting
`setex` in `createInvite` escapes after the transaction commit, so the call
fails although the record is already persisted; a rejecting `del` in
`useInvite` escapes after `findByIdAndUpdate`, so the call fails although
the durable record was already mutated. -/
theorem c5_cache_write_errors_propagate :
    createInvite (fun _ => "AAAA".toList) 1 0 30 true [] =
      (.error .cacheWriteError, [("AAAA".toList, ⟨1, 0, [], true, 2592000000⟩)]) ∧
    useInvite specAlphabet specSalt ("KKK5-KKKK".toList) "u@test.com" "ip" 0
        ⟨false, false, true⟩ ⟨some ⟨1, 0, [], true, 9⟩, [], none⟩ =
      (.error .cacheWriteError,
       ⟨some ⟨1, 1, [⟨"u@test.com", "ip", 0⟩], false, 9⟩, [], none⟩) := by
  decide

/-- C5 amended: only cache READ errors are swallowed and treated as misses
(`getFromCache` catches and returns null), so a failing cache read changes
nothing but the effective cache contents; a failing cache put in
`createInvite` and a failing cache delete in `useInvite` are NOT swallowed:
they turn the operation's success into a `cacheWriteError` failure after the
durable-store mutation has already been applied. -/
theorem c5_cache_error_paths (alphabet salt code : List Char) (email ip : String)
    (now : Int) (lb cg df : Bool) (st : SysState) (gen : Nat → List Char) (m : Nat)
    (cnow d : Int) (store : List (List Char × Invite)) :
    ((useInvite alphabet salt code email ip now ⟨lb, true, df⟩ st).1 =
      (useInvite alphabet salt code email ip now ⟨lb, false, df⟩
        ⟨st.store, st.others, none⟩).1) ∧
    (∀ c inv store₂,
      createInvite gen m cnow d false store = (.ok (c, inv), store₂) →
      createInvite gen m cnow d true store = (.error .cacheWriteError, store₂)) ∧
    (∀ r st',
      useInvite alphabet salt code email ip now ⟨lb, cg, false⟩ st = (.ok r, st') →
      useInvite alphabet salt code email ip now ⟨lb, cg, true⟩ st =
        (.error .cacheWriteError, ⟨st'.store, st'.others, st.cache⟩)) := by
  have hL : loadInvite st true = loadInvite ⟨st.store, st.others, none⟩ false := rfl
  have hU : usedAnywhere ⟨st.store, st.others, none⟩ email = usedAnywhere st email := rfl
  refine ⟨?_, ?_, ?_⟩
  · by_cases hv : validate alphabet salt (List.map Char.toUpper code) = true
    · by_cases hlb : lb = true
      · simp [useInvite, hv, hlb]
      · have hlb' : lb = false := by simpa using hlb
        subst hlb'
        cases hload : loadInvite st true with
        | none => simp [useInvite, hv, hL.symm, hload]
        | some invite =>
            by_cases h1 : invite.currentUses ≥ invite.maxUses
            · simp [useInvite, hv, hL.symm, hload, h1]
            · by_cases h2 : now > invite.expiresAt
              · simp [useInvite, hv, hL.symm, hload, h1, h2]
              · by_cases h3 : usedAnywhere st email = true
                · simp [useInvite, hv, hL.symm, hload, h1, h2, hU, h3]
                · have h3' : usedAnywhere st email = false := by simpa using h3
                  cases hst : st.store with
                  | none => simp [loadInvite, hst] at hload
                  | some r =>
                      have hload' : (if r.isActive = true then some r else none) =
                          some invite := by simpa [loadInvite, hst] using hload
                      by_cases hact : r.isActive = true
                      · have hinv : r = invite := by simpa [hact] using hload'
                        subst hinv
                        have hU' : usedAnywhere ⟨some r, st.others, none⟩ email = false := by
                          rw [show usedAnywhere ⟨some r, st.others, none⟩ email =
                            usedAnywhere st email from by simp [usedAnywhere, hst]]
                          exact h3'
                        cases hdf : df <;>
                          simp [useInvite, hv, loadInvite, hst, hact, h1, h2, h3', hU', hdf]
                      · simp [hact] at hload'
    · have hv' : validate alphabet salt (List.map Char.toUpper code) = false := by
        simpa using hv
      simp [useInvite, hv']
  · intro c inv store₂ h
    simp only [createInvite] at h ⊢
    cases hloop : genLoopFrom gen (fun cd => store.any fun p => p.1 == cd) 0 10 with
    | none => rw [hloop] at h; cases h
    | some cd =>
        rw [hloop] at h
        simp only [Bool.false_eq_true, if_false, Prod.mk.injEq, Except.ok.injEq] at h
        obtain ⟨⟨hcd, hinv⟩, hst2⟩ := h
        simp [← hst2, ← hcd, ← hinv]
  · intro r st' h
    by_cases hv : validate alphabet salt (List.map Char.toUpper code) = true
    · by_cases hlb : lb = true
      · simp [useInvite, hv, hlb] at h
      · have hlb' : lb = false := by simpa using hlb
        subst hlb'
        cases hload : loadInvite st cg with
        | none => simp [useInvite, hv, hload] at h
        | some invite =>
            by_cases h1 : invite.currentUses ≥ invite.maxUses
            · simp [useInvite, hv, hload, h1] at h
            · by_cases h2 : now > invite.expiresAt
              · simp [useInvite, hv, hload, h1, h2] at h
              · by_cases h3 : usedAnywhere st email = true
                · simp [useInvite, hv, hload, h1, h2, h3] at h
                · have h3' : usedAnywhere st email = false := by simpa using h3
                  cases hst : st.store with
                  | none =>
                      simp only [useInvite, hv, hload, h1, h2, h3', hst,
                        Bool.not_true, Bool.false_eq_true, if_false, ge_iff_le,
                        not_le.mpr (lt_of_not_le h1), if_neg h1, if_neg h2, if_neg h3,
                        Prod.mk.injEq, Except.ok.injEq] at h ⊢
                      obtain ⟨h4, h5⟩ := h
                      simp only [useInvite, hv, hload, h1, h2, h3', hst, ← h5, ← h4,
                        Bool.not_true, Bool.false_eq_true, if_false, if_neg h1,
                        if_neg h2, if_neg h3, if_true, Prod.mk.injEq, Except.error.injEq]
                      refine ⟨by simp [hv], ?_⟩
                      rw [← hst]
                  | some rcd =>
                      simp only [useInvite, hv, hload, h1, h2, h3', hst,
                        Bool.not_true, Bool.false_eq_true, if_false, ge_iff_le,
                        not_le.mpr (lt_of_not_le h1), if_neg h1, if_neg h2, if_neg h3,
                        Prod.mk.injEq, Except.ok.injEq] at h ⊢
                      obtain ⟨h4, h5⟩ := h
                      simp [useInvite, hv, hload, h1, h2, h3', hst, ← h5, ← h4]
    · have hv' : validate alphabet salt (List.map Char.toUpper code) = false := by
        simpa using hv
      simp [useInvite, hv'] at h

/-- Witness for C5 amended: a failing cache read behaves as a miss; a
failing `setex` turns a successful `createInvite` into a `cacheWriteError`
with the record persisted; a failing `del` turns a successful `useInvite`
into a `cacheWriteError` with the update applied. -/
theorem c5_cache_error_paths_witness :
    ((useInvite specAlphabet specSalt ("KKK5-KKKK".toList) "u@test.com" "ip" 0
        ⟨false, true, false⟩ ⟨some ⟨1, 0, [], true, 9⟩, [], none⟩).1 =
      (useInvite specAlphabet specSalt ("KKK5-KKKK".toList) "u@test.com" "ip" 0
        ⟨false, false, false⟩ ⟨some ⟨1, 0, [], true, 9⟩, [], none⟩).1) ∧
    createInvite (fun _ => "AAAA".toList) 1 0 30 true [] =
      (.error .cacheWriteError, [("AAAA".toList, ⟨1, 0, [], true, 2592000000⟩)]) ∧
    useInvite specAlphabet specSalt ("KKK5-KKKK".toList) "u@test.com" "ip" 0
        ⟨false, false, true⟩ ⟨some ⟨1, 0, [], true, 9⟩, [], none⟩ =
      (.error .cacheWriteError,
       ⟨some ⟨1, 1, [⟨"u@test.com", "ip", 0⟩], false, 9⟩, [], none⟩) := by
  have H := c5_cache_error_paths specAlphabet specSalt ("KKK5-KKKK".toList) "u@test.com"
    "ip" 0 false false false ⟨some ⟨1, 0, [], true, 9⟩, [], none⟩
    (fun _ => "AAAA".toList) 1 0 30 []
  exact ⟨H.1, H.2.1 ("AAAA".toList) ⟨1, 0, [], true, 2592000000⟩
      [("AAAA".toList, ⟨1, 0, [], true, 2592000000⟩)] (by decide),
    H.2.2 (some ⟨1, 1, [⟨"u@test.com", "ip", 0⟩], false, 9⟩)
      ⟨some ⟨1, 1, [⟨"u@test.com", "ip", 0⟩], false, 9⟩, [], none⟩ (by decide)⟩

/-! ## C10 -/

/-- C10: whenever `useInvite` exits with one of the business failures
(invalid format, lock contended, record not found, max uses reached,
expired, or identity already redeemed), the state is exactly as it was
before the call: the single conditional update runs only after every rule
check has passed. -/
theorem c10_failures_leave_state_unchanged (alphabet salt code : List Char)
    (email ip : String) (now : Int) (f : UseFaults) (st st₂ : SysState) (e : Err)
    (h : useInvite alphabet salt code email ip now f st = (.error e, st₂))
    (he : e ∈ [Err.invalidFormat, Err.contended, Err.notFound, Err.maxUsesReached,
      Err.expired, Err.identityUsed]) :
    st₂ = st := by
  unfold useInvite at h
  split at h
  · injection h with h1 h2
    exact h2.symm
  · split at h
    · injection h with h1 h2
      exact h2.symm
    · split at h
      · injection h with h1 h2
        exact h2.symm
      · split at h
        · injection h with h1 h2
          exact h2.symm
        · split at h
          · injection h with h1 h2
            exact h2.symm
          · split at h
            · injection h with h1 h2
              exact h2.symm
            · split at h <;>
                (dsimp only at h
                 split at h
                 · injection h with h1 h2
                   injection h1 with h1
                   rw [← h1] at he
                   simp at he
                 · injection h with h1 h2
                   exact Except.noConfusion h1)

/-- Witness for C10: a call failing with `invalidFormat` (bad checksum)
leaves the state unchanged. -/
theorem c10_failures_leave_state_unchanged_witness :
    (⟨some ⟨1, 0, [], true, 9⟩, [], none⟩ : SysState) =
      ⟨some ⟨1, 0, [], true, 9⟩, [], none⟩ :=
  c10_failures_leave_state_unchanged specAlphabet specSalt ("KKK7-KKKK".toList)
    "u@test.com" "ip" 0 noFaults ⟨some ⟨1, 0, [], true, 9⟩, [], none⟩
    ⟨some ⟨1, 0, [], true, 9⟩, [], none⟩ .invalidFormat (by decide) (by decide)

/-! ## C2 -/

lemma anyEmail_map (ip : String) (now : Int) (e : String) (es : List String) :
    ((es.map fun x => (⟨x, ip, now⟩ : Redemption)).any fun u => u.email == e) =
      es.any fun x => x == e := by
  induction es with
  | nil => rfl
  | cons a t ih => simp [ih]

lemma loadInvite_stateAfter (k : Nat) (exp : Int) (ip : String) (now : Int)
    (c0 : Option Invite) (es : List String)
    (hc0 : c0 = none ∨ c0 = some ⟨k, 0, [], true, exp⟩) (hk : 0 < k) :
    loadInvite (stateAfter k exp ip now c0 es) false =
      if es.length < k then
        some ⟨k, es.length, es.map fun x => ⟨x, ip, now⟩, decide (es.length < k), exp⟩
      else none := by
  cases es with
  | nil =>
      rcases hc0 with rfl | rfl
      · simp [loadInvite, stateAfter, hk]
      · simp [loadInvite, stateAfter, hk]
  | cons a t =>
      by_cases h : (a :: t).length < k
      · simp [loadInvite, stateAfter, h]
      · simp [loadInvite, stateAfter, h]

lemma useInvite_step (alphabet salt code : List Char) (ip e : String) (now exp : Int)
    (k : Nat) (c0 : Option Invite) (es : List String)
    (hv : validate alphabet salt (code.map Char.toUpper) = true)
    (hc0 : c0 = none ∨ c0 = some ⟨k, 0, [], true, exp⟩)
    (hnow : ¬ now > exp) (hk : 0 < k) (hfresh : e ∉ es) :
    (es.length < k →
      useInvite alphabet salt code e ip now ⟨false, false, false⟩
          (stateAfter k exp ip now c0 es) =
        (.ok (some ⟨k, es.length + 1, (es ++ [e]).map fun x => ⟨x, ip, now⟩,
            decide (es.length + 1 < k), exp⟩),
         stateAfter k exp ip now c0 (es ++ [e]))) ∧
    (es.length = k →
      useInvite alphabet salt code e ip now ⟨false, false, false⟩
          (stateAfter k exp ip now c0 es) =
        (.error .notFound, stateAfter k exp ip now c0 es)) := by
  have hany : (es.any fun x => x == e) = false := by
    simp only [List.any_eq_false]
    intro x hx hxe
    exact hfresh (beq_iff_eq.mp hxe ▸ hx)
  constructor
  · intro hlt
    cases es with
    | nil =>
        have h0 : ¬ (k ≤ 0) := by omega
        rcases hc0 with rfl | rfl
        · simp [useInvite, hv, loadInvite, stateAfter, usedAnywhere, hk, h0, hnow]
        · simp [useInvite, hv, loadInvite, stateAfter, usedAnywhere, hk, h0, hnow]
    | cons a t =>
        simp only [List.length_cons] at hlt
        have hle' : ¬ (k ≤ t.length + 1) := by omega
        simp only [List.mem_cons, not_or] at hfresh
        simp [useInvite, hv, loadInvite, stateAfter, usedAnywhere,
          anyEmail_map, hany, hnow, hlt, hle']
        exact ⟨fun h => hfresh.1 h.symm, hfresh.2⟩
  · intro heq
    cases es with
    | nil =>
        simp only [List.length_nil] at heq
        omega
    | cons a t =>
        simp only [List.length_cons] at heq
        have hnlt : ¬ (t.length + 1 < k) := by omega
        simp [useInvite, hv, loadInvite, stateAfter, hnlt]

lemma runAttempts_length (alphabet salt code : List Char) (ip : String) (now : Int) :
    ∀ (atts : List Attempt) (st : SysState),
      (runAttempts alphabet salt code ip now atts st).1.length = atts.length := by
  intro atts
  induction atts with
  | nil => intro st; rfl
  | cons a t ih => intro st; simp [runAttempts, ih]

lemma runAttempts_spec (alphabet salt code : List Char) (ip : String) (now exp : Int)
    (k : Nat) (c0 : Option Invite)
    (hv : validate alphabet salt (code.map Char.toUpper) = true)
    (hc0 : c0 = none ∨ c0 = some ⟨k, 0, [], true, exp⟩)
    (hnow : ¬ now > exp) (hk : 0 < k) :
    ∀ (atts : List Attempt) (es : List String),
      es.length ≤ k →
      (es ++ atts.map Attempt.email).Nodup →
      successCount (runAttempts alphabet salt code ip now atts
          (stateAfter k exp ip now c0 es)).1 =
        min (atts.countP fun a => !a.contended) (k - es.length) ∧
      ∃ es', (runAttempts alphabet salt code ip now atts
          (stateAfter k exp ip now c0 es)).2 = stateAfter k exp ip now c0 es' ∧
        es'.length = es.length + successCount (runAttempts alphabet salt code ip now atts
          (stateAfter k exp ip now c0 es)).1 := by
  intro atts
  induction atts with
  | nil =>
      intro es hle _
      refine ⟨by simp [runAttempts, successCount], es, rfl, by simp [runAttempts, successCount]⟩
  | cons a t ih =>
      intro es hle hnodup
      have hfresh : a.email ∉ es := fun hmem =>
        (List.nodup_append.mp hnodup).2.2 hmem (by simp)
      cases hcont : a.contended with
      | true =>
          have hu : useInvite alphabet salt code a.email ip now ⟨a.contended, false, false⟩
              (stateAfter k exp ip now c0 es) =
              (.error .contended, stateAfter k exp ip now c0 es) := by
            simp [useInvite, hv, hcont]
          have hnodup' : (es ++ t.map Attempt.email).Nodup :=
            hnodup.sublist ((List.sublist_cons_self a.email
              (t.map Attempt.email)).append_left es)
          obtain ⟨hcount, es', hstate, hlen⟩ := ih es hle hnodup'
          refine ⟨?_, es', ?_, ?_⟩
          · simp only [runAttempts, hu, successCount, List.filter, isOk]
            rw [List.countP_cons_of_neg _ _ (by simp [hcont])]
            rw [successCount] at hcount
            exact hcount
          · simp only [runAttempts, hu]
            exact hstate
          · simp only [runAttempts, hu, successCount, List.filter, isOk]
            rw [successCount] at hlen
            exact hlen
      | false =>
          rcases Nat.lt_or_ge es.length k with hlt | hge
          · have hu := (useInvite_step alphabet salt code ip a.email now exp k c0 es hv
              hc0 hnow hk hfresh).1 hlt
            have hnodup' : ((es ++ [a.email]) ++ t.map Attempt.email).Nodup := by
              rw [List.append_assoc]
              simpa using hnodup
            have hle' : (es ++ [a.email]).length ≤ k := by
              simp only [List.length_append, List.length_cons, List.length_nil]
              omega
            obtain ⟨hcount, es', hstate, hlen⟩ := ih (es ++ [a.email]) hle' hnodup'
            refine ⟨?_, es', ?_, ?_⟩
            · simp only [runAttempts, hcont, hu, successCount, List.filter, isOk]
              rw [List.countP_cons_of_pos _ _ (by simp [hcont])]
              simp only [List.length_cons]
              rw [successCount] at hcount
              rw [hcount]
              simp only [List.length_append, List.length_cons, List.length_nil] at *
              omega
            · simp only [runAttempts, hcont, hu]
              exact hstate
            · simp only [runAttempts, hcont, hu, successCount, List.filter, isOk,
                List.length_cons]
              rw [successCount] at hlen
              simp only [List.length_append, List.length_cons, List.length_nil] at hlen
              omega
          · have heq : es.length = k := le_antisymm hle hge
            have hu := (useInvite_step alphabet salt code ip a.email now exp k c0 es hv
              hc0 hnow hk hfresh).2 heq
            have hnodup' : (es ++ t.map Attempt.email).Nodup :=
              hnodup.sublist ((List.sublist_cons_self a.email
                (t.map Attempt.email)).append_left es)
            obtain ⟨hcount, es', hstate, hlen⟩ := ih es hle hnodup'
            refine ⟨?_, es', ?_, ?_⟩
            · simp only [runAttempts, hcont, hu, successCount, List.filter, isOk]
              rw [successCount] at hcount
              rw [hcount, heq]
              omega
            · simp only [runAttempts, hcont, hu]
              exact hstate
            · simp only [runAttempts, hcont, hu, successCount, List.filter, isOk]
              rw [successCount] at hlen
              exact hlen

/-- C2 counterexample: a fresh code with `maxUses = k = 2` receives `m = 3`
concurrent redemption attempts with pairwise distinct identities; the second
and third fire while the first holds the per-code lock, fail with the
Contended error ("Another request is processing this code"), and are never
retried — so only 1 attempt succeeds, not exactly `k = 2` as the claim
demands. -/
theorem c2_not_exactly_k_successes :
    successCount (runAttempts specAlphabet specSalt ("KKK5-KKKK".toList) "ip" 0
      [⟨"u1@test.com", false⟩, ⟨"u2@test.com", true⟩, ⟨"u3@test.com", true⟩]
      ⟨some ⟨2, 0, [], true, 9⟩, [], none⟩).1 = 1 ∧
    (3 : Nat) > 2 ∧ (1 : Nat) ≠ 2 := by
  decide

/-- C2 amended: for every schedule of redemption attempts with pairwise
distinct fresh identities against a fresh unexpired code with `maxUses = k`
(cache empty or holding the issue-time record), the number of successes is
`min(number of non-contended attempts, k)` — in particular never more than
`k` — and the final durable record carries `currentUses` equal to the number
of successes (no lost updates, no over-redemption); when no attempt loses
the lock race and `m > k` attempts fire, exactly `k` succeed and `m - k`
fail. -/
theorem c2_concurrent_redemptions (alphabet salt code : List Char) (ip : String)
    (now exp : Int) (k : Nat) (c0 : Option Invite) (atts : List Attempt)
    (hv : validate alphabet salt (code.map Char.toUpper) = true)
    (hc0 : c0 = none ∨ c0 = some ⟨k, 0, [], true, exp⟩)
    (hnow : ¬ now > exp) (hk : 0 < k)
    (hnodup : (atts.map Attempt.email).Nodup) :
    successCount (runAttempts alphabet salt code ip now atts
        (stateAfter k exp ip now c0 [])).1 =
      min (atts.countP fun a => !a.contended) k ∧
    (∃ inv, (runAttempts alphabet salt code ip now atts
        (stateAfter k exp ip now c0 [])).2.store = some inv ∧
      inv.maxUses = k ∧
      inv.currentUses = successCount (runAttempts alphabet salt code ip now atts
        (stateAfter k exp ip now c0 [])).1 ∧
      inv.currentUses ≤ k) ∧
    ((∀ a ∈ atts, a.contended = false) → k < atts.length →
      successCount (runAttempts alphabet salt code ip now atts
          (stateAfter k exp ip now c0 [])).1 = k ∧
      (runAttempts alphabet salt code ip now atts
          (stateAfter k exp ip now c0 [])).1.length -
        successCount (runAttempts alphabet salt code ip now atts
          (stateAfter k exp ip now c0 [])).1 = atts.length - k) := by
  obtain ⟨hcount, es', hstate, hlen⟩ := runAttempts_spec alphabet salt code ip now exp
    k c0 hv hc0 hnow hk atts [] (by simp) (by simpa using hnodup)
  have hcount' : successCount (runAttempts alphabet salt code ip now atts
      (stateAfter k exp ip now c0 [])).1 =
      min (atts.countP fun a => !a.contended) k := by simpa using hcount
  refine ⟨hcount', ?_, ?_⟩
  · have h1 : es'.length = successCount (runAttempts alphabet salt code ip now atts
        (stateAfter k exp ip now c0 [])).1 := by simpa using hlen
    refine ⟨⟨k, es'.length, es'.map fun x => ⟨x, ip, now⟩, decide (es'.length < k), exp⟩,
      by rw [hstate]; rfl, rfl, h1, ?_⟩
    show es'.length ≤ k
    rw [h1, hcount']
    omega
  · intro hall hm
    have hcp : (atts.countP fun a => !a.contended) = atts.length :=
      List.countP_eq_length.mpr fun a ha => by simp [hall a ha]
    have hs : successCount (runAttempts alphabet salt code ip now atts
        (stateAfter k exp ip now c0 [])).1 = k := by
      rw [hcount', hcp]
      omega
    refine ⟨hs, ?_⟩
    rw [hs, runAttempts_length]

/-- Witness for C2 amended: three serialized (never contended) attempts at
a fresh `maxUses = 2` code give exactly 2 successes and 1 failure. -/
theorem c2_concurrent_redemptions_witness :
    successCount (runAttempts specAlphabet specSalt ("KKK5-KKKK".toList) "ip" 0
        [⟨"u1@test.com", false⟩, ⟨"u2@test.com", false⟩, ⟨"u3@test.com", false⟩]
        (stateAfter 2 9 "ip" 0 none [])).1 = 2 ∧
    (runAttempts specAlphabet specSalt ("KKK5-KKKK".toList) "ip" 0
        [⟨"u1@test.com", false⟩, ⟨"u2@test.com", false⟩, ⟨"u3@test.com", false⟩]
        (stateAfter 2 9 "ip" 0 none [])).1.length -
      successCount (runAttempts specAlphabet specSalt ("KKK5-KKKK".toList) "ip" 0
        [⟨"u1@test.com", false⟩, ⟨"u2@test.com", false⟩, ⟨"u3@test.com", false⟩]
        (stateAfter 2 9 "ip" 0 none [])).1 = 1 :=
  (c2_concurrent_redemptions specAlphabet specSalt ("KKK5-KKKK".toList) "ip" 0 9 2 none
    [⟨"u1@test.com", false⟩, ⟨"u2@test.com", false⟩, ⟨"u3@test.com", false⟩]
    (by decide) (Or.inl rfl) (by decide) (by decide) (by decide)).2.2
    (by decide) (by decide)

end InviteSystem
